import Mathlib

/-!
# quiz-app: session store, scoring and outcome log

A shallow embedding of `main.go`.  Go strings are Lean strings, Go `int`
values are integers (with the 64-bit bounds written out where the standard
library saturates or wraps), the `quizzes` map is an association list with
one pair a key, and a run-time panic (index out of range) is the `none` of
an `Option`.  The `float64` arithmetic of `time.Duration` is computed exactly
on integers (round to nearest even, 53-bit significand).  Parallel requests
are interleavings of the handler's map operations.
-/

namespace QuizApp

/-! ## Standard-library functions the program calls -/

/-- Go `unicode.IsSpace`: the Latin-1 spaces and the characters with the
Unicode White_Space property. -/
def isSpace (c : Char) : Bool :=
  let r := c.toNat
  (9 ≤ r && r ≤ 13) || r == 32 || r == 0x85 || r == 0xA0 || r == 0x1680 ||
    (0x2000 ≤ r && r ≤ 0x200A) || r == 0x2028 || r == 0x2029 || r == 0x202F ||
    r == 0x205F || r == 0x3000

/-- Go `strings.TrimSpace`: leading and trailing white space removed. -/
def TrimSpace (s : String) : String :=
  String.mk ((s.data.dropWhile isSpace).reverse.dropWhile isSpace).reverse

/-- The two errors of package `strconv`: `ErrSyntax` and `ErrRange`. -/
inductive NumError where
  | invalid
  | outOfRange
deriving DecidableEq, Repr

/-- A decimal digit byte, `'0' <= c && c <= '9'`. -/
def isDigit (c : Char) : Bool := 48 ≤ c.toNat && c.toNat ≤ 57

/-- The value `c - '0'` of a digit byte. -/
def digitVal (c : Char) : Nat := c.toNat - 48

/-- The largest `uint64`. -/
def maxUint64 : Nat := 2 ^ 64 - 1

/-- The digit loop of `strconv.ParseUint(s, 10, 64)`: a byte that is no
digit is a syntax error with value 0; an overflow of `n*10` or of `n*10 + d`
stops the loop at once with the largest `uint64` and a range error. -/
def parseUintLoop : List Char → Nat → Nat × Option NumError
  | [], n => (n, none)
  | c :: cs, n =>
    if !isDigit c then (0, some NumError.invalid)
    else if n ≥ maxUint64 / 10 + 1 then (maxUint64, some NumError.outOfRange)
    else
      let n10 := n * 10 % 2 ^ 64
      let n1 := (n10 + digitVal c) % 2 ^ 64
      if n1 < n10 ∨ n1 > maxUint64 then (maxUint64, some NumError.outOfRange)
      else parseUintLoop cs n1

/-- Go `strconv.ParseUint(s, 10, 64)`. -/
def ParseUint (s : List Char) : Nat × Option NumError :=
  if s = [] then (0, some NumError.invalid) else parseUintLoop s 0

/-- Go `strconv.ParseInt(s, 10, 0)` on a 64-bit platform. -/
def ParseInt (s : List Char) : Int × Option NumError :=
  match s with
  | [] => (0, some NumError.invalid)
  | c :: rest =>
    let neg : Bool := c == '-'
    let body := if c == '+' || c == '-' then rest else c :: rest
    match ParseUint body with
    | (_, some NumError.invalid) => (0, some NumError.invalid)
    | (un, _) =>
      let cutoff : Nat := 2 ^ 63
      if !neg && decide (un ≥ cutoff) then (((cutoff - 1 : Nat) : Int), some NumError.outOfRange)
      else if neg && decide (un > cutoff) then (-(cutoff : Int), some NumError.outOfRange)
      else (if neg then -(un : Int) else (un : Int), none)

/-- The digit loop of the fast path of `strconv.Atoi`; `none` is the
syntax error. -/
def atoiLoop : List Char → Nat → Option Nat
  | [], n => some n
  | c :: cs, n => if !isDigit c then none else atoiLoop cs (n * 10 + digitVal c)

/-- Go `strconv.Atoi` on a 64-bit platform: the value and the error (`none`
is `nil`).  Strings of 1 to 18 bytes take the fast path, the others
`ParseInt`. -/
def Atoi (s : String) : Int × Option NumError :=
  let sLen := s.utf8ByteSize
  if 0 < sLen ∧ sLen < 19 then
    match s.data with
    | [] => (0, some NumError.invalid)
    | c :: rest =>
      let signed : Bool := c == '-' || c == '+'
      let body := if signed then rest else c :: rest
      if signed && decide (body.length < 1) then (0, some NumError.invalid)
      else
        match atoiLoop body 0 with
        | none => (0, some NumError.invalid)
        | some n => (if c == '-' then -(n : Int) else (n : Int), none)
  else ParseInt s.data

/-- The byte `'0' + d` of a decimal digit `d`. -/
def digitChar (d : Nat) : Char := Char.ofNat (48 + d % 10)

/-- The decimal digits of `n`, most significant first, in front of `acc`;
`fuel` bounds the number of digits. -/
def natDigits : Nat → Nat → List Char → List Char
  | 0, _, acc => acc
  | fuel + 1, n, acc =>
    if n / 10 = 0 then digitChar n :: acc else natDigits fuel (n / 10) (digitChar n :: acc)

/-- The decimal digits of a natural number. -/
def fmtNat (n : Nat) : List Char := natDigits (n + 1) n []

/-- The digits of `n` padded with leading zeros to at least `width`. -/
def padZero (width : Nat) (n : Nat) : List Char :=
  List.replicate (width - (fmtNat n).length) '0' ++ fmtNat n

/-- Go `fmt.Sprintf("%d", n)`. -/
def fmtD (n : Int) : String :=
  String.mk (if n < 0 then '-' :: fmtNat n.natAbs else fmtNat n.natAbs)

/-- Go `fmt.Sprintf("%02d", n)`: zero padding to width 2, the sign of a
negative number taking one place of the width. -/
def fmt02d (n : Int) : String :=
  String.mk (if n < 0 then '-' :: padZero 1 n.natAbs else padZero 2 n.natAbs)

/-- The `appendInt` of package `time`: the digits padded with zeros to
`width`, the sign not counted. -/
def appendInt (x : Int) (width : Nat) : String :=
  String.mk (if x < 0 then '-' :: padZero width x.natAbs else padZero width x.natAbs)

/-! ## Data model -/

/-- The struct `Question`. -/
structure Question where
  Correct : Int
  Text : String
  Options : List String
deriving DecidableEq, Repr

/-- The struct `Quiz`; `StartTime` is the monotonic clock reading, in
nanoseconds, that `time.Now()` took. -/
structure Quiz where
  Questions : List Question
  StartTime : Int
deriving DecidableEq, Repr

/-- The struct `Session`. -/
structure Session where
  Quiz : Quiz
  Username : String
deriving DecidableEq, Repr

/-! ## Question bank -/

/-- The body of the loop of `loadQuestions` for one record. -/
def loadLine (questions : List Question) (line : List String) : List Question :=
  if line.length < 3 then questions
  else
    let correct := (Atoi (TrimSpace (line.getD 0 ""))).1
    let text := TrimSpace (line.getD 1 "")
    let options := (line.drop 2).foldl (fun options opt => options ++ [TrimSpace opt]) []
    if correct > 0 ∧ correct ≤ (options.length : Int) then
      questions ++ [{ Correct := correct, Text := text, Options := options }]
    else questions

/-- The function `loadQuestions`, from the records `reader.ReadAll()`
returned. -/
def loadQuestions (lines : List (List String)) : List Question :=
  lines.foldl loadLine []

/-- The record-acceptance rule as the specification words it: at least 3
fields, the trimmed first field parses (no error) to an integer `c` with
`1 <= c <= number of fields - 2`; the question has `Correct = c`, the trimmed
field 1 as text and the trimmed fields 2..n as options. -/
def specQuestion (line : List String) : Option Question :=
  if 3 ≤ line.length then
    match Atoi (TrimSpace (line.getD 0 "")) with
    | (c, none) =>
      if 1 ≤ c ∧ c ≤ (line.length : Int) - 2 then
        some { Correct := c, Text := TrimSpace (line.getD 1 ""),
               Options := (line.drop 2).map TrimSpace }
      else none
    | (_, some _) => none
  else none

/-- The bank of the specification: the accepted records, in order. -/
def specBank (lines : List (List String)) : List Question :=
  lines.filterMap specQuestion

/-! ## Time and float64 -/

/-- The number of binary digits of `n`; `fuel` bounds them. -/
def bitLen : Nat → Nat → Nat
  | 0, _ => 0
  | fuel + 1, n => if n = 0 then 0 else 1 + bitLen fuel (n / 2)

/-- The IEEE 754 round-to-nearest-even of the positive rational `num/den`
(`den > 0`) to a 53-bit significand: the pair `(m, e)` stands for `m * 2^e`.
Exponent overflow and subnormal numbers are left out; no value computed
here comes near them. -/
def roundRatio (num den : Nat) : Nat × Int :=
  if num = 0 then (0, 0)
  else
    let lb : Int := (bitLen num num : Int) - (bitLen den den : Int)
    let ge : Bool :=
      if lb ≥ 0 then decide (num ≥ den * 2 ^ lb.toNat) else decide (num * 2 ^ (-lb).toNat ≥ den)
    let e : Int := (if ge then lb else lb - 1) - 52
    let n1 := if e ≤ 0 then num * 2 ^ (-e).toNat else num
    let d1 := if e ≤ 0 then den else den * 2 ^ e.toNat
    let q := n1 / d1
    let r := n1 % d1
    (if 2 * r > d1 ∨ (2 * r = d1 ∧ q % 2 = 1) then q + 1 else q, e)

/-- A finite `float64`: the value `(-1)^neg * mant * 2^exp`. -/
structure F64 where
  neg : Bool
  mant : Nat
  exp : Int
deriving DecidableEq, Repr

/-- The conversion `float64(n)` of an integer. -/
def F64.ofInt (n : Int) : F64 :=
  let r := roundRatio n.natAbs 1
  { neg := decide (n < 0), mant := r.1, exp := r.2 }

/-- The `float64` quotient `a / b`, correctly rounded (`b` not zero). -/
def F64.div (a b : F64) : F64 :=
  let num := if a.exp ≥ b.exp then a.mant * 2 ^ (a.exp - b.exp).toNat else a.mant
  let den := if a.exp ≥ b.exp then b.mant else b.mant * 2 ^ (b.exp - a.exp).toNat
  let r := roundRatio num den
  { neg := a.neg != b.neg, mant := r.1, exp := r.2 }

/-- The `float64` sum `a + b`, correctly rounded. -/
def F64.add (a b : F64) : F64 :=
  let e := min a.exp b.exp
  let ia : Int := (if a.neg then -1 else 1) * ((a.mant * 2 ^ (a.exp - e).toNat : Nat) : Int)
  let ib : Int := (if b.neg then -1 else 1) * ((b.mant * 2 ^ (b.exp - e).toNat : Nat) : Int)
  let s := ia + ib
  let r := roundRatio s.natAbs 1
  { neg := decide (s < 0), mant := r.1, exp := r.2 + e }

/-- The conversion `int(f)`: the fraction is discarded (truncation toward
zero). -/
def F64.toInt (a : F64) : Int :=
  let mag : Nat := if a.exp ≥ 0 then a.mant * 2 ^ a.exp.toNat else a.mant / 2 ^ (-a.exp).toNat
  if a.neg then -(mag : Int) else (mag : Int)

/-- The constant `time.Second`, in nanoseconds. -/
def Second : Int := 1000000000

/-- The constant `time.Minute`, in nanoseconds. -/
def Minute : Int := 60 * Second

/-- Go `Duration.Seconds`: `float64(sec) + float64(nsec)/1e9`. -/
def Seconds (d : Int) : F64 :=
  let sec := Int.tdiv d Second
  let nsec := Int.tmod d Second
  F64.add (F64.ofInt sec) (F64.div (F64.ofInt nsec) (F64.ofInt 1000000000))

/-- Go `Duration.Minutes`: `float64(min) + float64(nsec)/(60*1e9)`. -/
def Minutes (d : Int) : F64 :=
  let min := Int.tdiv d Minute
  let nsec := Int.tmod d Minute
  F64.add (F64.ofInt min) (F64.div (F64.ofInt nsec) (F64.ofInt 60000000000))

/-- The largest `int64`. -/
def maxInt64 : Int := 2 ^ 63 - 1

/-- The smallest `int64`. -/
def minInt64 : Int := -(2 ^ 63)

/-- An integer wrapped to the `int64` range. -/
def wrapInt64 (x : Int) : Int := (x + 2 ^ 63) % 2 ^ 64 - 2 ^ 63

/-- Go `time.Since(t)` for a `t` that carries a monotonic reading, as the
`StartTime` that `time.Now()` set does: the difference of the two readings of
the monotonic clock, saturated at the `Duration` bounds (`subMono`).  The
wall clock plays no part, and a later reading of the monotonic clock is never
below an earlier one. -/
def Since (now t : Int) : Int :=
  let d := wrapInt64 (now - t)
  if d < 0 ∧ now > t then maxInt64
  else if d > 0 ∧ now < t then minInt64
  else d

/-- The wall-clock fields `time.Now().Format` prints. -/
structure WallTime where
  year : Int
  month : Int
  day : Int
  hour : Int
  minute : Int
  second : Int
deriving DecidableEq, Repr

/-- Go `t.Format("2006-01-02|15:04:05")`. -/
def formatNow (t : WallTime) : String :=
  appendInt t.year 4 ++ "-" ++ appendInt t.month 2 ++ "-" ++ appendInt t.day 2 ++ "|" ++
    appendInt t.hour 2 ++ ":" ++ appendInt t.minute 2 ++ ":" ++ appendInt t.second 2

/-! ## Outcome log -/

/-- The string `timeStr` of `writeLog`. -/
def timeStr (duration : Int) : String :=
  let minutes := (Minutes duration).toInt
  let seconds := Int.tmod (Seconds duration).toInt 60
  fmt02d minutes ++ ":" ++ fmt02d seconds

/-- The string `line` of `writeLog`. -/
def logLine (now : WallTime) (username : String) (correct total : Int) (duration : Int) :
    String :=
  formatNow now ++ ", " ++ username ++ ", правильных ответов " ++ fmtD correct ++ " из " ++
    fmtD total ++ ", время: " ++ timeStr duration ++ "\n"

/-- The function `writeLog`: the text handed to `f.WriteString`, `none` when
`os.OpenFile` fails. -/
def writeLog (opens : Bool) (now : WallTime) (username : String) (correct total : Int)
    (duration : Int) : Option String :=
  if !opens then none else some (logLine now username correct total duration)

/-! ## Session store -/

/-- The type of the map `quizzes`: an association list, one pair a key. -/
abbrev Store := List (String × Session)

/-- The map read `quizzes[k]`; `none` is the nil pointer of a missing key. -/
def mapGet (m : Store) (k : String) : Option Session := List.lookup k m

/-- The map delete `delete(quizzes, k)`. -/
def mapDelete (m : Store) (k : String) : Store := m.filter (fun p => p.1 != k)

/-- The map write `quizzes[k] = v`: a pair already under `k` is replaced. -/
def mapSet (m : Store) (k : String) (v : Session) : Store := (k, v) :: mapDelete m k

/-- The handler of `POST /start`: the store after the request and the
session id set as cookie.  `unixNano` is the `time.Now().UnixNano()` of the
token, `startTime` the `time.Now()` stored as `StartTime`. -/
def startHandler (questions : List Question) (quizzes : Store) (nameField : String)
    (unixNano startTime : Int) : Store × String :=
  let name := if nameField = "" then "Аноним" else nameField
  let sessionID := fmtD unixNano
  (mapSet quizzes sessionID
    { Quiz := { Questions := questions, StartTime := startTime }, Username := name },
   sessionID)

/-- The handler of `GET /quiz`: the questions and their number for the
page, `none` for the redirect to `/`. -/
def quizHandler (quizzes : Store) (session : String) : Option (List Question × Int) :=
  match mapGet quizzes session with
  | none => none
  | some s => some (s.Quiz.Questions, (s.Quiz.Questions.length : Int))

/-- A sequence of `/start` requests (name, the clock value of the token, the
clock value of `StartTime`) served one after another: the store at the end
and the tokens handed out, in order. -/
def startAll (questions : List Question) :
    Store → List (String × Int × Int) → Store × List String
  | quizzes, [] => (quizzes, [])
  | quizzes, (name, unixNano, startTime) :: rest =>
    let r := startHandler questions quizzes name unixNano startTime
    let rs := startAll questions r.1 rest
    (rs.1, r.2 :: rs.2)

/-! ## Scoring -/

/-- The POST form of a request: the fields in the order sent. -/
abbrev Form := List (String × String)

/-- The call `c.PostForm(key)`: the first value of the field, the empty
string when the form has no such field. -/
def PostForm (form : Form) (key : String) : String := (List.lookup key form).getD ""

/-- A slice index expression `xs[i]` with an `int` index: `none` is the
index-out-of-range panic. -/
def index {α : Type} (xs : List α) (i : Int) : Option α :=
  if i < 0 then none else xs[i.toNat]?

/-- The first loop of the `/submit` handler: `answers`, all zero at first,
gets the parsed value of every field `q<i>` that is not empty. -/
def readAnswers (form : Form) (n : Nat) : List Int :=
  (List.range n).foldl
    (fun answers (i : Nat) =>
      let key := "q" ++ fmtD (i : Int)
      let val := PostForm form key
      if val ≠ "" then answers.set i (Atoi val).1 else answers)
    (List.replicate n 0)

/-- The answer the specification reads off the form for question `i`: the
unanswered value 0 for a missing or empty field `q<i>`, else the value the
field parses to. -/
def answerOf (form : Form) (i : Nat) : Int :=
  if PostForm form ("q" ++ fmtD (i : Int)) = "" then 0
  else (Atoi (PostForm form ("q" ++ fmtD (i : Int)))).1

/-- The placeholder `optionText` returns for an index that names no option. -/
def notChosen : String := "<em>не выбрано</em>"

/-- The function `optionText`. -/
def optionText (options : List String) (idx : Int) : Option String :=
  if idx > 0 ∧ idx ≤ (options.length : Int) then index options (idx - 1) else some notChosen

/-- The block the scoring loop formats for one question. -/
def answerItem (number : Int) (text userColor userText correctText : String) : String :=
  "\n\t\t\t\t<div class=\"answer-item mb-3 p-3 border rounded\">" ++
  "\n\t\t\t\t\t<strong>Вопрос " ++ fmtD number ++ "</strong><br>" ++
  "\n\t\t\t\t\t" ++ text ++ "<br>" ++
  "\n\t\t\t\t\t<span style=\"color: " ++ userColor ++ ";\">Ваш ответ: " ++ userText ++
    "</span><br>" ++
  "\n\t\t\t\t\t<span class=\"text-success\">Правильный: " ++ correctText ++ "</span>" ++
  "\n\t\t\t\t</div>"

/-- One iteration of the scoring loop of the `/submit` handler, for the
question `q` at index `i`, on the pair of `correctCount` and the text of
`resultBuilder`. -/
def scoreStep (answers : List Int) (i : Nat) (q : Question) (st : Int × String) :
    Option (Int × String) :=
  match index answers (i : Int) with
  | none => none
  | some userAns =>
    let correctAns := q.Correct
    let correctCount := if userAns = correctAns then st.1 + 1 else st.1
    let userColor := if userAns = correctAns then "#0d6efd" else "#dc3545"
    match optionText q.Options userAns, optionText q.Options correctAns with
    | some userText, some correctText =>
      some (correctCount,
        st.2 ++ answerItem ((i : Int) + 1) q.Text userColor userText correctText)
    | _, _ => none

/-- The scoring loop of the `/submit` handler from index `i` on. -/
def scoreLoop (answers : List Int) : Nat → List Question → Int × String → Option (Int × String)
  | _, [], st => some st
  | i, q :: qs, st =>
    match scoreStep answers i q st with
    | none => none
    | some st1 => scoreLoop answers (i + 1) qs st1

/-- The values the `/submit` handler hands to the template `result.html`. -/
structure ResultPage where
  Username : String
  Correct : Int
  Total : Int
  Time : Int
  AnswersHTML : String
deriving DecidableEq, Repr

/-- The answer of the `/submit` handler: status 400 with the error
"Сессия истекла", or the result page. -/
inductive Response where
  | sessionExpired
  | result (page : ResultPage)
deriving DecidableEq, Repr

/-- What one `/submit` request leaves: the store, the line given to the
log (if any) and the response. -/
structure SubmitOutcome where
  quizzes : Store
  logged : Option String
  response : Response
deriving DecidableEq, Repr

/-- The handler of `POST /submit`; `now` is the monotonic reading of
`time.Since`, `wall` the wall clock of `writeLog`, `logOpens` whether
`os.OpenFile` succeeds.  `none` is a panic. -/
def submitHandler (quizzes : Store) (session : String) (form : Form) (now : Int)
    (wall : WallTime) (logOpens : Bool) : Option SubmitOutcome :=
  match mapGet quizzes session with
  | none => some { quizzes := quizzes, logged := none, response := Response.sessionExpired }
  | some s =>
    let quiz := s.Quiz
    let username := s.Username
    let answers := readAnswers form quiz.Questions.length
    let duration := Since now quiz.StartTime
    match scoreLoop answers 0 quiz.Questions (0, "<div class=\x27answers\x27>") with
    | none => none
    | some (correctCount, resultBuilder) =>
      some {
        quizzes := mapDelete quizzes session
        logged := writeLog logOpens wall username correctCount (quiz.Questions.length : Int)
          duration
        response := Response.result {
          Username := username
          Correct := correctCount
          Total := (quiz.Questions.length : Int)
          Time := (Minutes duration).toInt
          AnswersHTML := resultBuilder ++ "</div>" } }

/-! ## Requests in sequence and in parallel -/

/-- A request to one of the three session routes. -/
inductive Request where
  | start (name : String) (unixNano startTime : Int)
  | quiz (session : String)
  | submit (session : String) (form : Form) (now : Int) (wall : WallTime) (logOpens : Bool)
deriving DecidableEq, Repr

/-- Whether the request is a `POST /start`. -/
def Request.isStart : Request → Bool
  | Request.start _ _ _ => true
  | _ => false

/-- The store after one request served alone; a handler that panics is
recovered by the router and leaves the store as it was. -/
def serve (questions : List Question) (quizzes : Store) : Request → Store
  | Request.start name unixNano startTime =>
    (startHandler questions quizzes name unixNano startTime).1
  | Request.quiz _ => quizzes
  | Request.submit session form now wall logOpens =>
    match submitHandler quizzes session form now wall logOpens with
    | none => quizzes
    | some out => out.quizzes

/-- The store after a sequence of requests served one after another. -/
def serveAll (questions : List Question) (quizzes : Store) (reqs : List Request) : Store :=
  reqs.foldl (serve questions) quizzes

/-- Where a `/submit` request stands: before its map read, holding the
session it read (scoring), done with a result, or done with status 400. -/
inductive Phase where
  | pending
  | found (s : Session)
  | scored
  | notFound
deriving DecidableEq, Repr

/-- Parallel `/submit` requests on one map: the map and each request's
phase. -/
structure Racing where
  quizzes : Store
  phases : List Phase
deriving DecidableEq, Repr

/-- One step of request `i`: a pending request reads the map
(`s := quizzes[session]`); a request holding a session finishes its scoring
and deletes the key (`delete(quizzes, session)`); a finished request does
nothing. -/
def raceStep (session : String) (r : Racing) (i : Nat) : Racing :=
  match r.phases[i]? with
  | some Phase.pending =>
    match mapGet r.quizzes session with
    | none => { r with phases := r.phases.set i Phase.notFound }
    | some s => { r with phases := r.phases.set i (Phase.found s) }
  | some (Phase.found _) =>
    { quizzes := mapDelete r.quizzes session, phases := r.phases.set i Phase.scored }
  | _ => r

/-- The run of `n` parallel `/submit` requests with the same cookie under a
schedule, the list of the requests that take the successive steps. -/
def race (session : String) (quizzes : Store) (n : Nat) (schedule : List Nat) : Racing :=
  schedule.foldl (raceStep session) { quizzes := quizzes, phases := List.replicate n Phase.pending }

/-- The schedule that serves the requests one after another in the given
order: both steps of a request before the next request starts. -/
def serialSchedule (order : List Nat) : List Nat :=
  order.flatMap (fun i => [i, i])

/-- The number of requests that read the session and scored it. -/
def scoredCount (r : Racing) : Nat := r.phases.count Phase.scored

/-- The number of requests that found no session. -/
def notFoundCount (r : Racing) : Nat := r.phases.count Phase.notFound

/-! ## Example data -/

/-- The one-question bank of the specification's example. -/
def exampleBank : List Question := [{ Correct := 2, Text := "Q1", Options := ["a", "b", "c"] }]

/-- A wall-clock reading. -/
def exampleWall : WallTime :=
  { year := 2024, month := 3, day := 7, hour := 9, minute := 5, second := 1 }

/-- A store holding one session, under the token "17". -/
def exampleStore : Store :=
  [("17", { Quiz := { Questions := exampleBank, StartTime := 5 }, Username := "Bob" })]

/-- Records of a question file: one good record, then an index of 0, a
negative index, an index above the number of options, a text that is no
number, and a record of two fields. -/
def exampleLines : List (List String) :=
  [[" 2", " Q1 ", "a", "b ", "c"], ["0", "Q2", "a"], ["-1", "Q3", "a"], ["5", "Q4", "a"],
   ["x", "Q5", "a"], ["1", "Q6"]]


/-! ## Lemmas and theorems -/

theorem ParseInt_err (s : List Char) :
    (ParseInt s).2 = none ∨
      (ParseInt s).1 = 0 ∨ (ParseInt s).1 = 2 ^ 63 - 1 ∨ (ParseInt s).1 = -(2 ^ 63) := by
  unfold ParseInt
  split
  · simp
  · simp only
    split
    · simp
    · split_ifs <;> simp

theorem Atoi_err (s : String) :
    (Atoi s).2 = none ∨
      (Atoi s).1 = 0 ∨ (Atoi s).1 = 2 ^ 63 - 1 ∨ (Atoi s).1 = -(2 ^ 63) := by
  unfold Atoi
  dsimp only
  split_ifs
  · split
    · simp
    · split_ifs <;> first | (split <;> simp) | simp
  · exact ParseInt_err _

theorem foldl_options (l acc : List String) :
    l.foldl (fun options opt => options ++ [TrimSpace opt]) acc = acc ++ l.map TrimSpace := by
  induction l generalizing acc with
  | nil => simp
  | cons x xs ih => simp [ih]

theorem loadLine_eq (questions : List Question) (line : List String)
    (h : line.length < 2 ^ 63) :
    loadLine questions line = questions ++ (specQuestion line).toList := by
  unfold loadLine specQuestion
  by_cases h3 : line.length < 3
  · have : ¬ 3 ≤ line.length := by omega
    simp [h3, this]
  · have h3' : 3 ≤ line.length := by omega
    simp only [h3, h3', if_true, if_false, foldl_options, List.nil_append, List.length_map,
      List.length_drop]
    have hcast : ((line.length - 2 : Nat) : Int) = (line.length : Int) - 2 := by omega
    rw [hcast]
    rcases hA : Atoi (TrimSpace (line.getD 0 "")) with ⟨c, e⟩
    have herr := Atoi_err (TrimSpace (line.getD 0 ""))
    rw [hA] at herr
    simp only at herr ⊢
    cases e with
    | none =>
      have : (c > 0 ∧ c ≤ (line.length : Int) - 2) ↔ (1 ≤ c ∧ c ≤ (line.length : Int) - 2) := by
        constructor <;> rintro ⟨a, b⟩ <;> exact ⟨by omega, b⟩
      by_cases hc : 1 ≤ c ∧ c ≤ (line.length : Int) - 2
      · have h0 : 0 < c := by omega
        simp [hc, h0]
      · have h0 : ¬ (0 < c ∧ c ≤ (line.length : Int) - 2) := fun h => hc (this.1 h)
        simp only [gt_iff_lt, h0, hc, if_false, Option.toList, List.append_nil]
    | some e =>
      have hlen : (line.length : Int) < 2 ^ 63 := by exact_mod_cast h
      have : ¬ (c > 0 ∧ c ≤ (line.length : Int) - 2) := by
        rintro ⟨a, b⟩
        rcases herr with h0 | h0 | h0 | h0
        · simp at h0
        · omega
        · omega
        · omega
      simp [this]

theorem loadQuestions_foldl (lines : List (List String)) (acc : List Question)
    (h : ∀ line ∈ lines, line.length < 2 ^ 63) :
    lines.foldl loadLine acc = acc ++ specBank lines := by
  induction lines generalizing acc with
  | nil => simp [specBank]
  | cons l ls ih =>
    have hl := h l (List.mem_cons_self _ _)
    have hls : ∀ line ∈ ls, line.length < 2 ^ 63 := fun x hx => h x (List.mem_cons_of_mem _ hx)
    rw [List.foldl_cons, ih _ hls, loadLine_eq _ _ hl]
    unfold specBank
    rw [List.filterMap_cons]
    cases specQuestion l <;> simp

theorem index_natCast {α : Type} (xs : List α) (i : Nat) : index xs (i : Int) = xs[i]? := by
  unfold index
  have : ¬ ((i : Int) < 0) := by omega
  simp [this]

theorem optionText_isSome (options : List String) (idx : Int) :
    ∃ t, optionText options idx = some t := by
  unfold optionText
  split_ifs with h
  · have h1 : ¬ (idx - 1 < 0) := by omega
    have h2 : (idx - 1).toNat < options.length := by omega
    unfold index
    simp only [h1, if_false]
    exact ⟨options[(idx - 1).toNat], List.getElem?_eq_getElem h2⟩
  · exact ⟨notChosen, rfl⟩

theorem scoreStep_eq (answers : List Int) (i : Nat) (q : Question) (st : Int × String)
    (a : Int) (ha : answers[i]? = some a) :
    ∃ html, scoreStep answers i q st = some (if a = q.Correct then st.1 + 1 else st.1, html) := by
  unfold scoreStep
  rw [index_natCast, ha]
  obtain ⟨u, hu⟩ := optionText_isSome q.Options a
  obtain ⟨c, hc⟩ := optionText_isSome q.Options q.Correct
  simp only [hu, hc]
  exact ⟨_, rfl⟩

theorem scoreLoop_eq (answers : List Int) (qs : List Question) :
    ∀ (i : Nat) (st : Int × String), i + qs.length ≤ answers.length →
      ∃ html, scoreLoop answers i qs st =
        some (st.1 + (((List.range qs.length).countP
          (fun j => decide (answers[i + j]? = qs[j]?.map Question.Correct)) : Nat) : Int), html) := by
  induction qs with
  | nil => intro i st _; exact ⟨st.2, by simp [scoreLoop]⟩
  | cons q qs ih =>
    intro i st hlen
    simp only [List.length_cons] at hlen
    have hi : i < answers.length := by omega
    obtain ⟨html1, h1⟩ := scoreStep_eq answers i q st answers[i] (List.getElem?_eq_getElem hi)
    obtain ⟨html2, h2⟩ := ih (i + 1) (if answers[i] = q.Correct then st.1 + 1 else st.1, html1)
      (by omega)
    refine ⟨html2, ?_⟩
    unfold scoreLoop
    rw [h1]
    simp only
    rw [h2]
    congr 2
    rw [List.length_cons, List.range_succ_eq_map, List.countP_cons, List.countP_map]
    have hfun : ((fun j => decide ((answers[i + j]? : Option Int) =
          (q :: qs)[j]?.map Question.Correct)) ∘ Nat.succ) =
        (fun j => decide (answers[i + 1 + j]? = qs[j]?.map Question.Correct)) := by
      funext j
      simp only [Function.comp, Nat.succ_eq_add_one, List.getElem?_cons_succ]
      congr 2
      congr 1
      omega
    rw [hfun]
    simp only [Nat.add_zero, List.getElem?_cons_zero, Option.map_some',
      List.getElem?_eq_getElem hi, Option.some.injEq]
    by_cases hq : answers[i] = q.Correct
    · simp [hq]; ring
    · simp [hq]

theorem readAnswers_upto (form : Form) (n k : Nat) :
    ((List.range k).foldl
        (fun answers (i : Nat) =>
          let key := "q" ++ fmtD (i : Int)
          let val := PostForm form key
          if val ≠ "" then answers.set i (Atoi val).1 else answers)
        (List.replicate n 0)).length = n ∧
    ∀ i, i < n →
      ((List.range k).foldl
        (fun answers (i : Nat) =>
          let key := "q" ++ fmtD (i : Int)
          let val := PostForm form key
          if val ≠ "" then answers.set i (Atoi val).1 else answers)
        (List.replicate n 0))[i]? =
      some (if i < k then answerOf form i else 0) := by
  induction k with
  | zero =>
    refine ⟨by simp, ?_⟩
    intro i hi
    simp [List.getElem?_replicate, hi]
  | succ k ih =>
    obtain ⟨hlen, hget⟩ := ih
    rw [List.range_succ, List.foldl_append]
    simp only [List.foldl_cons, List.foldl_nil]
    by_cases hv : PostForm form ("q" ++ fmtD (k : Int)) = ""
    · simp only [hv, ne_eq, not_true_eq_false, if_false]
      refine ⟨hlen, ?_⟩
      intro i hi
      rw [hget i hi]
      by_cases hik : i = k
      · subst hik
        simp [answerOf, hv]
      · have : (i < k + 1) ↔ (i < k) := by omega
        simp only [this]
    · simp only [hv, ne_eq, not_false_eq_true, if_true]
      refine ⟨by rw [List.length_set]; exact hlen, ?_⟩
      intro i hi
      by_cases hik : i = k
      · subst hik
        rw [List.getElem?_set_self (by rw [hlen]; exact hi)]
        simp [answerOf, hv]
      · rw [List.getElem?_set_ne (fun h => hik h.symm), hget i hi]
        have : (i < k + 1) ↔ (i < k) := by omega
        simp only [this]

theorem readAnswers_length (form : Form) (n : Nat) : (readAnswers form n).length = n :=
  (readAnswers_upto form n n).1

theorem readAnswers_get (form : Form) (n i : Nat) (hi : i < n) :
    (readAnswers form n)[i]? = some (answerOf form i) := by
  have h := (readAnswers_upto form n n).2 i hi
  simp only [hi, if_true] at h
  exact h

theorem countP_answers (form : Form) (bank : List Question) :
    (List.range bank.length).countP
        (fun j => decide ((readAnswers form bank.length)[0 + j]? = bank[j]?.map Question.Correct)) =
      (List.range bank.length).countP
        (fun j => decide (some (answerOf form j) = bank[j]?.map Question.Correct)) := by
  apply List.countP_congr
  intro j hj
  rw [List.mem_range] at hj
  rw [Nat.zero_add, readAnswers_get form bank.length j hj]

theorem submitHandler_found (quizzes : Store) (session : String) (s : Session) (form : Form)
    (now : Int) (wall : WallTime) (logOpens : Bool) (h : mapGet quizzes session = some s) :
    ∃ html, submitHandler quizzes session form now wall logOpens =
      some {
        quizzes := mapDelete quizzes session
        logged := writeLog logOpens wall s.Username
          (((List.range s.Quiz.Questions.length).countP
            (fun j => decide (some (answerOf form j) = s.Quiz.Questions[j]?.map Question.Correct)) :
              Nat) : Int)
          (s.Quiz.Questions.length : Int) (Since now s.Quiz.StartTime)
        response := Response.result {
          Username := s.Username
          Correct := (((List.range s.Quiz.Questions.length).countP
            (fun j => decide (some (answerOf form j) = s.Quiz.Questions[j]?.map Question.Correct)) :
              Nat) : Int)
          Total := (s.Quiz.Questions.length : Int)
          Time := (Minutes (Since now s.Quiz.StartTime)).toInt
          AnswersHTML := html } } := by
  obtain ⟨html, hloop⟩ := scoreLoop_eq (readAnswers form s.Quiz.Questions.length) s.Quiz.Questions 0
    (0, "<div class=\x27answers\x27>") (by rw [readAnswers_length]; omega)
  rw [countP_answers] at hloop
  refine ⟨html ++ "</div>", ?_⟩
  unfold submitHandler
  rw [h]
  simp only
  rw [hloop]
  simp

theorem loadLine_valid (questions : List Question) (line : List String)
    (h : ∀ q ∈ questions, 0 < q.Correct ∧ q.Correct ≤ (q.Options.length : Int)) :
    ∀ q ∈ loadLine questions line, 0 < q.Correct ∧ q.Correct ≤ (q.Options.length : Int) := by
  unfold loadLine
  dsimp only
  split_ifs with h1 h2
  · exact h
  · intro q hq
    rw [List.mem_append, List.mem_singleton] at hq
    rcases hq with hq | hq
    · exact h q hq
    · subst hq
      exact h2
  · exact h

theorem foldl_loadLine_valid (lines : List (List String)) (questions : List Question)
    (h : ∀ q ∈ questions, 0 < q.Correct ∧ q.Correct ≤ (q.Options.length : Int)) :
    ∀ q ∈ lines.foldl loadLine questions,
      0 < q.Correct ∧ q.Correct ≤ (q.Options.length : Int) := by
  induction lines generalizing questions with
  | nil => exact h
  | cons l ls ih => exact ih _ (loadLine_valid questions l h)

theorem loadQuestions_valid (lines : List (List String)) :
    ∀ q ∈ loadQuestions lines, 0 < q.Correct ∧ q.Correct ≤ (q.Options.length : Int) :=
  foldl_loadLine_valid lines [] (by simp)

/-- C4: on records of fewer than 2^63 fields (the bound of a Go slice
length), the bank `loadQuestions` builds is the list, in the original order,
of the questions of the records the specification accepts: at least 3 fields
and a trimmed first field that parses to an integer between 1 and the number
of fields minus 2; every other record is dropped and leaves the rest as it
is. -/
theorem loadQuestions_eq_specBank (lines : List (List String))
    (h : ∀ line ∈ lines, line.length < 2 ^ 63) :
    loadQuestions lines = specBank lines := by
  unfold loadQuestions
  rw [loadQuestions_foldl lines [] h, List.nil_append]

theorem loadQuestions_eq_specBank_witness :
    loadQuestions exampleLines = specBank exampleLines ∧
      loadQuestions exampleLines = [{ Correct := 2, Text := "Q1", Options := ["a", "b", "c"] }] :=
  ⟨loadQuestions_eq_specBank exampleLines (by decide), by decide⟩

/-- C3: when the cookie names a live session, the `/submit` handler answers
with a result page whose `Correct` is the number of indices `i` below the
number of questions at which the answer read off the form (0 for a missing or
empty field `q<i>`) equals `Correct` of question `i`, and whose `Total` is the
number of questions; the same two numbers go to the log. -/
theorem submit_correctCount (quizzes : Store) (session : String) (s : Session) (form : Form)
    (now : Int) (wall : WallTime) (logOpens : Bool) (h : mapGet quizzes session = some s) :
    ∃ out page, submitHandler quizzes session form now wall logOpens = some out ∧
      out.response = Response.result page ∧
      page.Correct = (((List.range s.Quiz.Questions.length).countP
        (fun i => decide (some (answerOf form i) = s.Quiz.Questions[i]?.map Question.Correct)) :
          Nat) : Int) ∧
      page.Total = (s.Quiz.Questions.length : Int) ∧
      out.logged = writeLog logOpens wall s.Username page.Correct page.Total
        (Since now s.Quiz.StartTime) := by
  obtain ⟨html, hs⟩ := submitHandler_found quizzes session s form now wall logOpens h
  exact ⟨_, _, hs, rfl, rfl, rfl, rfl⟩

theorem submit_correctCount_witness :
    (∃ out page, submitHandler exampleStore "17" [("q0", "2")] 9 exampleWall true = some out ∧
      out.response = Response.result page ∧ page.Correct = 1 ∧ page.Total = 1) ∧
    (∃ out page, submitHandler exampleStore "17" [("q0", "0")] 9 exampleWall true = some out ∧
      out.response = Response.result page ∧ page.Correct = 0 ∧ page.Total = 1) ∧
    (∃ out page, submitHandler exampleStore "17" [] 9 exampleWall true = some out ∧
      out.response = Response.result page ∧ page.Correct = 0 ∧ page.Total = 1) := by
  refine ⟨?_, ?_, ?_⟩
  · obtain ⟨out, page, h1, h2, h3, h4, _⟩ := submit_correctCount exampleStore "17"
      { Quiz := { Questions := exampleBank, StartTime := 5 }, Username := "Bob" }
      [("q0", "2")] 9 exampleWall true (by decide)
    exact ⟨out, page, h1, h2, by rw [h3]; decide, by rw [h4]; decide⟩
  · obtain ⟨out, page, h1, h2, h3, h4, _⟩ := submit_correctCount exampleStore "17"
      { Quiz := { Questions := exampleBank, StartTime := 5 }, Username := "Bob" }
      [("q0", "0")] 9 exampleWall true (by decide)
    exact ⟨out, page, h1, h2, by rw [h3]; decide, by rw [h4]; decide⟩
  · obtain ⟨out, page, h1, h2, h3, h4, _⟩ := submit_correctCount exampleStore "17"
      { Quiz := { Questions := exampleBank, StartTime := 5 }, Username := "Bob" }
      [] 9 exampleWall true (by decide)
    exact ⟨out, page, h1, h2, by rw [h3]; decide, by rw [h4]; decide⟩

/-- C7: when the cookie names a live session, the `Correct` and `Total` of
the result page of the `/submit` handler satisfy `0 <= Correct <= Total`, and
`Total` is the number of questions of the session. -/
theorem submit_correctCount_bounds (quizzes : Store) (session : String) (s : Session)
    (form : Form) (now : Int) (wall : WallTime) (logOpens : Bool)
    (h : mapGet quizzes session = some s) :
    ∃ out page, submitHandler quizzes session form now wall logOpens = some out ∧
      out.response = Response.result page ∧
      0 ≤ page.Correct ∧ page.Correct ≤ page.Total ∧
      page.Total = (s.Quiz.Questions.length : Int) := by
  obtain ⟨html, hs⟩ := submitHandler_found quizzes session s form now wall logOpens h
  refine ⟨_, _, hs, rfl, ?_, ?_, rfl⟩
  · exact Int.natCast_nonneg _
  · have hle := List.countP_le_length
      (fun i => decide (some (answerOf form i) = s.Quiz.Questions[i]?.map Question.Correct))
      (l := List.range s.Quiz.Questions.length)
    rw [List.length_range] at hle
    show ((List.countP _ (List.range s.Quiz.Questions.length) : Nat) : Int) ≤
      (s.Quiz.Questions.length : Int)
    exact_mod_cast hle

theorem submit_correctCount_bounds_witness :
    ∃ out page, submitHandler exampleStore "17" [("q0", "2")] 9 exampleWall true = some out ∧
      out.response = Response.result page ∧
      0 ≤ page.Correct ∧ page.Correct ≤ page.Total ∧ page.Total = 1 :=
  submit_correctCount_bounds exampleStore "17"
    { Quiz := { Questions := exampleBank, StartTime := 5 }, Username := "Bob" }
    [("q0", "2")] 9 exampleWall true (by decide)

theorem optionText_spec (options : List String) (idx : Int) :
    ∃ t, optionText options idx = some t ∧
      ((1 ≤ idx ∧ idx ≤ (options.length : Int)) → options[(idx - 1).toNat]? = some t) ∧
      (¬ (1 ≤ idx ∧ idx ≤ (options.length : Int)) → t = notChosen) := by
  unfold optionText
  by_cases h : idx > 0 ∧ idx ≤ (options.length : Int)
  · have h1 : ¬ (idx - 1 < 0) := by omega
    have h2 : (idx - 1).toNat < options.length := by omega
    have h3 : 1 ≤ idx ∧ idx ≤ (options.length : Int) := ⟨by omega, h.2⟩
    refine ⟨options[(idx - 1).toNat], ?_, ?_, ?_⟩
    · unfold index
      simp only [h, and_self, if_true, h1, if_false]
      exact List.getElem?_eq_getElem h2
    · intro _
      exact List.getElem?_eq_getElem h2
    · intro hn
      exact absurd h3 hn
  · have h3 : ¬ (1 ≤ idx ∧ idx ≤ (options.length : Int)) := fun h' => h ⟨by omega, h'.2⟩
    refine ⟨notChosen, ?_, ?_, ?_⟩
    · simp only [h, if_false]
    · intro h'
      exact absurd h' h3
    · intro _
      rfl

/-- C5: for the bank `loadQuestions` builds from any records and for any
form, the scoring loop of the `/submit` handler runs to its end without an
index out of range; the iteration for a question whose answer lies outside
`[1, number of options]` leaves `correctCount` as it was; and `optionText`
always returns a text, `options[idx-1]` when `1 <= idx <= len(options)` and
the placeholder otherwise. -/
theorem scoring_out_of_range (lines : List (List String)) (form : Form) :
    (∃ st, scoreLoop (readAnswers form (loadQuestions lines).length) 0 (loadQuestions lines)
        (0, "<div class=\x27answers\x27>") = some st) ∧
    (∀ (i : Nat) (q : Question) (a : Int) (st : Int × String),
      (loadQuestions lines)[i]? = some q →
      (readAnswers form (loadQuestions lines).length)[i]? = some a →
      (a < 1 ∨ (q.Options.length : Int) < a) →
      ∃ html, scoreStep (readAnswers form (loadQuestions lines).length) i q st =
        some (st.1, html)) ∧
    (∀ (options : List String) (idx : Int), ∃ t, optionText options idx = some t ∧
      ((1 ≤ idx ∧ idx ≤ (options.length : Int)) → options[(idx - 1).toNat]? = some t) ∧
      (¬ (1 ≤ idx ∧ idx ≤ (options.length : Int)) → t = notChosen)) := by
  refine ⟨?_, ?_, optionText_spec⟩
  · obtain ⟨html, h⟩ := scoreLoop_eq (readAnswers form (loadQuestions lines).length)
      (loadQuestions lines) 0 (0, "<div class=\x27answers\x27>")
      (by rw [readAnswers_length]; omega)
    exact ⟨_, h⟩
  · intro i q a st hq ha hout
    have hmem : q ∈ loadQuestions lines := List.getElem?_mem hq
    have hvalid := loadQuestions_valid lines q hmem
    obtain ⟨html, h⟩ := scoreStep_eq (readAnswers form (loadQuestions lines).length) i q st a ha
    have hne : a ≠ q.Correct := by
      intro heq
      rcases hout with h1 | h1 <;> omega
    rw [if_neg hne] at h
    exact ⟨html, h⟩

theorem scoring_out_of_range_witness :
    (∃ html, scoreStep (readAnswers [("q0", "7")] (loadQuestions exampleLines).length) 0
        { Correct := 2, Text := "Q1", Options := ["a", "b", "c"] } (0, "") = some (0, html)) ∧
      optionText ["a", "b", "c"] 7 = some notChosen ∧
      optionText ["a", "b", "c"] 0 = some notChosen ∧
      optionText ["a", "b", "c"] 3 = some "c" :=
  ⟨(scoring_out_of_range exampleLines [("q0", "7")]).2.1 0
      { Correct := 2, Text := "Q1", Options := ["a", "b", "c"] } 7 (0, "")
      (by decide) (by decide) (by decide),
    by decide, by decide, by decide⟩

theorem mapGet_mapDelete (m : Store) (k k1 : String) :
    mapGet (mapDelete m k1) k = if k = k1 then none else mapGet m k := by
  unfold mapGet mapDelete
  induction m with
  | nil => simp
  | cons p ps ih =>
    obtain ⟨a, v⟩ := p
    by_cases hk : k = k1
    · subst hk
      simp only [if_true] at ih ⊢
      by_cases ha : a = k
      · subst ha
        simpa [List.filter_cons] using ih
      · have : (a != k) = true := by simpa using ha
        rw [List.filter_cons, if_pos this, List.lookup_cons]
        have hka : (k == a) = false := by simpa using fun h => ha h.symm
        rw [hka]
        exact ih
    · simp only [hk, if_false] at ih ⊢
      by_cases ha : a = k1
      · subst ha
        have hka : (k == a) = false := by simpa using hk
        simp only [List.filter_cons, bne_self_eq_false, Bool.false_eq_true, if_false,
          List.lookup_cons, hka]
        exact ih
      · have : (a != k1) = true := by simpa using ha
        rw [List.filter_cons, if_pos this, List.lookup_cons, List.lookup_cons, ih]

theorem mapGet_mapSet_self (m : Store) (k : String) (v : Session) :
    mapGet (mapSet m k v) k = some v := by
  simp [mapGet, mapSet, List.lookup_cons]

theorem submitHandler_none (quizzes : Store) (session : String) (form : Form) (now : Int)
    (wall : WallTime) (logOpens : Bool) (h : mapGet quizzes session = none) :
    submitHandler quizzes session form now wall logOpens =
      some { quizzes := quizzes, logged := none, response := Response.sessionExpired } := by
  unfold submitHandler
  rw [h]

theorem serve_keeps_absent (questions : List Question) (quizzes : Store) (r : Request)
    (k : String) (hr : r.isStart = false) (h : mapGet quizzes k = none) :
    mapGet (serve questions quizzes r) k = none := by
  cases r with
  | start name unixNano startTime => simp [Request.isStart] at hr
  | quiz session => exact h
  | submit session form now wall logOpens =>
    simp only [serve]
    cases hs : mapGet quizzes session with
    | none => rw [submitHandler_none _ _ _ _ _ _ hs]; exact h
    | some s =>
      obtain ⟨html, hf⟩ := submitHandler_found quizzes session s form now wall logOpens hs
      rw [hf]
      simp only
      rw [mapGet_mapDelete, h]
      simp

theorem serveAll_keeps_absent (questions : List Question) (reqs : List Request)
    (quizzes : Store) (k : String) (hr : ∀ r ∈ reqs, r.isStart = false)
    (h : mapGet quizzes k = none) :
    mapGet (serveAll questions quizzes reqs) k = none := by
  induction reqs generalizing quizzes with
  | nil => exact h
  | cons r rs ih =>
    unfold serveAll
    rw [List.foldl_cons]
    exact ih _ (fun x hx => hr x (List.mem_cons_of_mem _ hx))
      (serve_keeps_absent questions quizzes r k (hr r (List.mem_cons_self _ _)) h)

/-- C1: for every store and every `/start` request, the first `/submit`
with the token of that request finds the session, scores it (the result page
carries the count of matching answers and the number of questions) and leaves
the store without the token; after any further requests that are not a
`/start`, a `/submit` with the same token finds no session: it answers with
the session-expired error, logs nothing and changes nothing in the store. -/
theorem start_submit_once (questions : List Question) (quizzes : Store) (nameField : String)
    (unixNano startTime : Int) (form : Form) (now : Int) (wall : WallTime) (logOpens : Bool)
    (later : List Request) (form2 : Form) (now2 : Int) (wall2 : WallTime) (logOpens2 : Bool)
    (hlater : ∀ r ∈ later, r.isStart = false) :
    ∃ out page,
      submitHandler (startHandler questions quizzes nameField unixNano startTime).1
        (startHandler questions quizzes nameField unixNano startTime).2 form now wall logOpens =
          some out ∧
      out.response = Response.result page ∧
      page.Correct = (((List.range questions.length).countP
        (fun i => decide (some (answerOf form i) = questions[i]?.map Question.Correct)) :
          Nat) : Int) ∧
      page.Total = (questions.length : Int) ∧
      mapGet out.quizzes (startHandler questions quizzes nameField unixNano startTime).2 = none ∧
      submitHandler (serveAll questions out.quizzes later)
        (startHandler questions quizzes nameField unixNano startTime).2 form2 now2 wall2
          logOpens2 =
        some { quizzes := serveAll questions out.quizzes later, logged := none,
               response := Response.sessionExpired } := by
  have hget : mapGet (startHandler questions quizzes nameField unixNano startTime).1
      (startHandler questions quizzes nameField unixNano startTime).2 =
      some { Quiz := { Questions := questions, StartTime := startTime },
             Username := if nameField = "" then "Аноним" else nameField } := by
    unfold startHandler
    exact mapGet_mapSet_self _ _ _
  obtain ⟨html, hs⟩ := submitHandler_found _ _ _ form now wall logOpens hget
  have habsent : mapGet (mapDelete (startHandler questions quizzes nameField unixNano startTime).1
      (startHandler questions quizzes nameField unixNano startTime).2)
      (startHandler questions quizzes nameField unixNano startTime).2 = none := by
    rw [mapGet_mapDelete]; simp
  refine ⟨_, _, hs, rfl, rfl, rfl, habsent, ?_⟩
  exact submitHandler_none _ _ _ _ _ _
    (serveAll_keeps_absent questions later _ _ hlater habsent)

theorem start_submit_once_witness :
    ∃ out page,
      submitHandler (startHandler exampleBank exampleStore "Ann" 42 7).1
        (startHandler exampleBank exampleStore "Ann" 42 7).2 [("q0", "2")] 9 exampleWall true =
          some out ∧
      out.response = Response.result page ∧
      page.Correct = (((List.range exampleBank.length).countP
        (fun i => decide (some (answerOf [("q0", "2")] i) =
          exampleBank[i]?.map Question.Correct)) : Nat) : Int) ∧
      page.Total = (exampleBank.length : Int) ∧
      mapGet out.quizzes (startHandler exampleBank exampleStore "Ann" 42 7).2 = none ∧
      submitHandler (serveAll exampleBank out.quizzes
          [Request.quiz "42", Request.submit "17" [] 11 exampleWall true])
        (startHandler exampleBank exampleStore "Ann" 42 7).2 [("q0", "2")] 12 exampleWall true =
        some { quizzes := serveAll exampleBank out.quizzes
                 [Request.quiz "42", Request.submit "17" [] 11 exampleWall true],
               logged := none, response := Response.sessionExpired } :=
  start_submit_once exampleBank exampleStore "Ann" 42 7 [("q0", "2")] 9 exampleWall true
    [Request.quiz "42", Request.submit "17" [] 11 exampleWall true] [("q0", "2")] 12
    exampleWall true (by decide)

set_option maxRecDepth 100000 in
/-- C8: a session submitted 262144 minutes and 59.999999999 seconds after
its start has 15728699 whole seconds, so the claimed string is "262144:59";
`writeLog` formats "262145:59", because the `float64` sum in
`Duration.Minutes` rounds up to 262145.  The two examples of the claim,
303 s and 3723 s, are formatted as claimed. -/
theorem timeStr_minutes_round_up :
    timeStr (262144 * Minute + 59999999999) = "262145:59" ∧
    Int.tdiv (262144 * Minute + 59999999999) Second = 15728699 ∧
    fmt02d (15728699 / 60) ++ ":" ++ fmt02d (15728699 % 60) = "262144:59" ∧
    timeStr (303 * Second) = "05:03" ∧
    timeStr (3723 * Second) = "62:03" := by
  decide

theorem wrapInt64_of_range (x : Int) (h0 : -(2 ^ 63) ≤ x) (h1 : x < 2 ^ 63) :
    wrapInt64 x = x := by
  unfold wrapInt64
  rw [Int.emod_eq_of_lt (by omega) (by omega)]
  omega

set_option maxRecDepth 100000 in
/-- C9: the start time of a session and the current time of its `/submit`
are readings of the process's monotonic clock, which never runs backward, so
the current reading is not earlier than the start reading (their difference
fitting a `Duration`); for all such readings the elapsed duration of the
`/submit` handler is `max(0, now - startedAt)` and is not negative, and the
zero duration is formatted as "00:00". -/
theorem since_forward (now t : Int) (h1 : t ≤ now) (h2 : now - t ≤ maxInt64) :
    Since now t = max 0 (now - t) ∧ 0 ≤ Since now t ∧
      (now = t → timeStr (Since now t) = "00:00") := by
  have hmax : maxInt64 = 2 ^ 63 - 1 := rfl
  have hw : wrapInt64 (now - t) = now - t := wrapInt64_of_range _ (by omega) (by omega)
  have hs : Since now t = now - t := by
    unfold Since
    simp only [hw]
    have hA : ¬ (now - t < 0 ∧ now > t) := fun h => by omega
    have hB : ¬ (now - t > 0 ∧ now < t) := fun h => by omega
    rw [if_neg hA, if_neg hB]
  refine ⟨?_, ?_, ?_⟩
  · rw [hs, max_eq_right (by omega)]
  · rw [hs]; omega
  · intro h
    rw [hs, h, sub_self]
    decide

theorem since_forward_witness :
    (Since 303000000005 5 = max 0 (303000000005 - 5) ∧ 0 ≤ Since 303000000005 5 ∧
      ((303000000005 : Int) = 5 → timeStr (Since 303000000005 5) = "00:00")) ∧
    timeStr (Since 5 5) = "00:00" :=
  ⟨since_forward 303000000005 5 (by decide) (by decide),
    (since_forward 5 5 (by decide) (by decide)).2.2 rfl⟩

theorem isDigit_digitChar (d : Nat) : isDigit (digitChar d) = true := by
  unfold digitChar
  have h : d % 10 < 10 := Nat.mod_lt _ (by decide)
  have key : ∀ k, k < 10 → isDigit (Char.ofNat (48 + k)) = true := by decide
  exact key _ h

theorem digitVal_digitChar (d : Nat) : digitVal (digitChar d) = d % 10 := by
  unfold digitChar
  have h : d % 10 < 10 := Nat.mod_lt _ (by decide)
  have key : ∀ k, k < 10 → digitVal (Char.ofNat (48 + k)) = k := by decide
  exact key _ h

theorem natDigits_mem (fuel n : Nat) (acc : List Char) (c : Char)
    (h : c ∈ natDigits fuel n acc) : c ∈ acc ∨ isDigit c = true := by
  induction fuel generalizing n acc with
  | zero => exact Or.inl h
  | succ fuel ih =>
    unfold natDigits at h
    split_ifs at h
    · rcases List.mem_cons.1 h with h | h
      · right; rw [h]; exact isDigit_digitChar n
      · exact Or.inl h
    · rcases ih _ _ h with h | h
      · rcases List.mem_cons.1 h with h | h
        · right; rw [h]; exact isDigit_digitChar n
        · exact Or.inl h
      · exact Or.inr h

theorem fmtNat_mem (n : Nat) (c : Char) (h : c ∈ fmtNat n) : isDigit c = true := by
  rcases natDigits_mem _ _ _ _ h with h | h
  · simp at h
  · exact h

theorem padZero_mem (width n : Nat) (c : Char) (h : c ∈ padZero width n) :
    isDigit c = true := by
  unfold padZero at h
  rcases List.mem_append.1 h with h | h
  · rw [List.mem_replicate] at h
    rw [h.2]; decide
  · exact fmtNat_mem n c h

theorem fmtD_mem (n : Int) (c : Char) (h : c ∈ (fmtD n).data) : c = '-' ∨ isDigit c = true := by
  unfold fmtD at h
  simp only at h
  split_ifs at h
  · rcases List.mem_cons.1 h with h | h
    · exact Or.inl h
    · exact Or.inr (fmtNat_mem _ c h)
  · exact Or.inr (fmtNat_mem _ c h)

theorem fmt02d_mem (n : Int) (c : Char) (h : c ∈ (fmt02d n).data) :
    c = '-' ∨ isDigit c = true := by
  unfold fmt02d at h
  simp only at h
  split_ifs at h
  · rcases List.mem_cons.1 h with h | h
    · exact Or.inl h
    · exact Or.inr (padZero_mem _ _ c h)
  · exact Or.inr (padZero_mem _ _ c h)

theorem appendInt_mem (x : Int) (width : Nat) (c : Char) (h : c ∈ (appendInt x width).data) :
    c = '-' ∨ isDigit c = true := by
  unfold appendInt at h
  simp only at h
  split_ifs at h
  · rcases List.mem_cons.1 h with h | h
    · exact Or.inl h
    · exact Or.inr (padZero_mem _ _ c h)
  · exact Or.inr (padZero_mem _ _ c h)

theorem newline_not_number {c : Char} (h : c = '-' ∨ isDigit c = true) : c ≠ '\n' := by
  rintro rfl
  rcases h with h | h
  · exact absurd h (by decide)
  · exact absurd h (by decide)

theorem formatNow_no_newline (t : WallTime) : '\n' ∉ (formatNow t).data := by
  unfold formatNow
  simp only [String.data_append, List.mem_append, not_or]
  refine ⟨⟨⟨⟨⟨⟨⟨⟨⟨⟨?_, ?_⟩, ?_⟩, ?_⟩, ?_⟩, ?_⟩, ?_⟩, ?_⟩, ?_⟩, ?_⟩, ?_⟩
  all_goals first
    | exact fun h => newline_not_number (appendInt_mem _ _ _ h) rfl
    | decide

theorem timeStr_no_newline (d : Int) : '\n' ∉ (timeStr d).data := by
  unfold timeStr
  simp only [String.data_append, List.mem_append, not_or]
  refine ⟨⟨?_, ?_⟩, ?_⟩
  all_goals first
    | exact fun h => newline_not_number (fmt02d_mem _ _ h) rfl
    | decide

set_option maxRecDepth 100000 in
/-- C10 fails on the code: for the display name "a\nb", which a client can
submit, the text `writeLog` writes holds two newline characters, so the one
session adds two lines to the log. -/
theorem logLine_name_with_newline :
    writeLog true exampleWall "a\nb" 1 1 0 =
      some "2024-03-07|09:05:01, a\nb, правильных ответов 1 из 1, время: 00:00\n" ∧
    (logLine exampleWall "a\nb" 1 1 0).data.count '\n' = 2 := by
  decide

/-- C10, amended: for every display name that holds no newline character,
and every count, total and duration, when the log destination opens the text
`writeLog` writes is one line: a text without a newline followed by a single
newline. -/
theorem writeLog_one_line (now : WallTime) (username : String) (correct total : Int)
    (duration : Int) (h : '\n' ∉ username.data) :
    ∃ body : String, writeLog true now username correct total duration = some (body ++ "\n") ∧
      '\n' ∉ body.data := by
  refine ⟨formatNow now ++ ", " ++ username ++ ", правильных ответов " ++ fmtD correct ++
    " из " ++ fmtD total ++ ", время: " ++ timeStr duration, rfl, ?_⟩
  simp only [String.data_append, List.mem_append, not_or]
  refine ⟨⟨⟨⟨⟨⟨⟨⟨formatNow_no_newline now, ?_⟩, h⟩, ?_⟩, ?_⟩, ?_⟩, ?_⟩, ?_⟩, timeStr_no_newline _⟩
  all_goals first
    | exact fun h => newline_not_number (fmtD_mem _ _ h) rfl
    | decide

set_option maxRecDepth 100000 in
theorem writeLog_one_line_witness :
    ∃ body : String, writeLog true exampleWall "Bob" 1 2 303000000000 = some (body ++ "\n") ∧
      '\n' ∉ body.data :=
  writeLog_one_line exampleWall "Bob" 1 2 303000000000 (by decide)

theorem natDigits_acc (fuel n : Nat) (acc : List Char) :
    natDigits fuel n acc = natDigits fuel n [] ++ acc := by
  induction fuel generalizing n acc with
  | zero => simp [natDigits]
  | succ fuel ih =>
    unfold natDigits
    split_ifs
    · simp
    · rw [ih (n / 10) (digitChar n :: acc), ih (n / 10) [digitChar n]]
      simp

theorem atoiLoop_append (xs : List Char) (c : Char) (a : Nat) :
    atoiLoop (xs ++ [c]) a =
      (atoiLoop xs a).bind (fun v => if !isDigit c then none else some (v * 10 + digitVal c)) := by
  induction xs generalizing a with
  | nil => simp [atoiLoop]
  | cons x xs ih =>
    rw [List.cons_append]
    by_cases hx : isDigit x = true
    · have hnx : ¬ ((!isDigit x) = true) := by simp [hx]
      rw [atoiLoop, if_neg hnx, atoiLoop, if_neg hnx]
      exact ih _
    · have hnx : (!isDigit x) = true := by simpa using hx
      rw [atoiLoop, if_pos hnx, atoiLoop, if_pos hnx]
      rfl

theorem atoiLoop_natDigits (fuel n : Nat) (h : n < fuel) :
    atoiLoop (natDigits fuel n []) 0 = some n := by
  induction fuel generalizing n with
  | zero => omega
  | succ fuel ih =>
    unfold natDigits
    split_ifs with h0
    · have hn : n % 10 = n := by omega
      simp [atoiLoop, isDigit_digitChar, digitVal_digitChar, hn]
    · rw [natDigits_acc, atoiLoop_append, ih (n / 10) (by omega)]
      simp only [Option.some_bind, isDigit_digitChar, Bool.not_true, Bool.false_eq_true,
        if_false, digitVal_digitChar]
      congr 1
      omega

theorem fmtNat_injective (a b : Nat) (h : fmtNat a = fmtNat b) : a = b := by
  have ha := atoiLoop_natDigits (a + 1) a (by omega)
  have hb := atoiLoop_natDigits (b + 1) b (by omega)
  unfold fmtNat at h
  rw [h, hb] at ha
  exact (Option.some.inj ha).symm

theorem fmtD_injective (a b : Int) (h : fmtD a = fmtD b) : a = b := by
  unfold fmtD at h
  have hd := congrArg String.data h
  simp only at hd
  have hminus : ∀ n : Nat, ∀ l : List Char, '-' :: l ≠ fmtNat n := by
    intro n l hl
    have hm : '-' ∈ fmtNat n := by rw [← hl]; exact List.mem_cons_self _ _
    exact absurd (fmtNat_mem n _ hm) (by decide)
  split_ifs at hd with h1 h2 h2
  · have := fmtNat_injective _ _ (List.cons.inj hd).2
    omega
  · exact absurd hd (hminus _ _)
  · exact absurd hd.symm (hminus _ _)
  · have := fmtNat_injective _ _ hd
    omega

theorem mapDelete_absent (m : Store) (k : String) (h : k ∉ m.map Prod.fst) :
    mapDelete m k = m := by
  unfold mapDelete
  rw [List.filter_eq_self]
  intro p hp
  have : p.1 ≠ k := fun hk => h (hk ▸ List.mem_map_of_mem Prod.fst hp)
  simpa using this

theorem startAll_fresh (questions : List Question) (reqs : List (String × Int × Int))
    (quizzes : Store)
    (hnodup : (reqs.map (fun r => fmtD r.2.1)).Nodup)
    (hnew : ∀ t ∈ reqs.map (fun r => fmtD r.2.1), t ∉ quizzes.map Prod.fst) :
    (startAll questions quizzes reqs).2 = reqs.map (fun r => fmtD r.2.1) ∧
      (startAll questions quizzes reqs).1.length = quizzes.length + reqs.length := by
  induction reqs generalizing quizzes with
  | nil => simp [startAll]
  | cons r rs ih =>
    obtain ⟨name, unixNano, startTime⟩ := r
    simp only [List.map_cons, List.nodup_cons] at hnodup
    have hk : fmtD unixNano ∉ quizzes.map Prod.fst :=
      hnew _ (by simp)
    have hstore : (startHandler questions quizzes name unixNano startTime).1 =
        (fmtD unixNano, { Quiz := { Questions := questions, StartTime := startTime },
                          Username := if name = "" then "Аноним" else name }) :: quizzes := by
      unfold startHandler mapSet
      simp only
      rw [mapDelete_absent _ _ hk]
    have hnew2 : ∀ t ∈ rs.map (fun r => fmtD r.2.1),
        t ∉ ((startHandler questions quizzes name unixNano startTime).1).map Prod.fst := by
      intro t ht
      rw [hstore, List.map_cons, List.mem_cons, not_or]
      refine ⟨?_, hnew t (List.mem_cons_of_mem _ ht)⟩
      intro heq
      have heq2 : t = fmtD unixNano := heq
      rw [heq2] at ht
      exact hnodup.1 ht
    obtain ⟨h1, h2⟩ := ih _ hnodup.2 hnew2
    unfold startAll
    simp only [List.map_cons, List.length_cons]
    refine ⟨?_, ?_⟩
    · rw [h1]; rfl
    · rw [h2, hstore, List.length_cons]; omega

/-- C6 fails on the code: two `/start` requests that read the same clock
value 42 get the same token "42", the second overwrites the session of the
first, and the store holds one session after the two calls. -/
theorem start_same_clock_overwrites :
    (startAll exampleBank [] [("Ann", 42, 1), ("Bob", 42, 2)]).2 = ["42", "42"] ∧
    (startAll exampleBank [] [("Ann", 42, 1), ("Bob", 42, 2)]).1.length = 1 ∧
    mapGet (startAll exampleBank [] [("Ann", 42, 1), ("Bob", 42, 2)]).1 "42" =
      some { Quiz := { Questions := exampleBank, StartTime := 2 }, Username := "Bob" } := by
  decide

/-- C6, amended: for every sequence of `/start` requests whose token clock
values are pairwise different, served from the empty store, the tokens handed
out are pairwise different and the store holds as many sessions as there were
requests: no request overwrites a session. -/
theorem start_distinct_clocks_fresh (questions : List Question)
    (reqs : List (String × Int × Int)) (h : (reqs.map (fun r => r.2.1)).Nodup) :
    (startAll questions [] reqs).2.Nodup ∧
      (startAll questions [] reqs).1.length = reqs.length := by
  have hnodup : (reqs.map (fun r => fmtD r.2.1)).Nodup := by
    have hcomp : reqs.map (fun r => fmtD r.2.1) = (reqs.map (fun r => r.2.1)).map fmtD := by
      rw [List.map_map]; rfl
    rw [hcomp]
    exact List.Nodup.map (fun a b hab => fmtD_injective a b hab) h
  obtain ⟨h1, h2⟩ := startAll_fresh questions reqs [] hnodup (by simp)
  refine ⟨by rw [h1]; exact hnodup, by rw [h2]; simp⟩

theorem start_distinct_clocks_fresh_witness :
    (startAll exampleBank [] [("Ann", 42, 1), ("Bob", 43, 1), ("", -7, 2)]).2.Nodup ∧
      (startAll exampleBank [] [("Ann", 42, 1), ("Bob", 43, 1), ("", -7, 2)]).1.length =
        [(("Ann", 42, 1) : String × Int × Int), ("Bob", 43, 1), ("", -7, 2)].length :=
  start_distinct_clocks_fresh exampleBank [("Ann", 42, 1), ("Bob", 43, 1), ("", -7, 2)]
    (by decide)

theorem foldl_serialSchedule (f : Racing → Nat → Racing) (order : List Nat) (r : Racing) :
    (serialSchedule order).foldl f r = order.foldl (fun r i => f (f r i) i) r := by
  unfold serialSchedule
  induction order generalizing r with
  | nil => rfl
  | cons i rest ih =>
    rw [List.flatMap_cons, List.foldl_append, List.foldl_cons, ih]
    rfl

theorem getElem_of_getElem? {α : Type} {l : List α} {i : Nat} {a : α} (h : l[i]? = some a) :
    ∃ hi : i < l.length, l[i] = a := by
  have hi : i < l.length := by
    by_contra hn
    rw [List.getElem?_eq_none (by omega)] at h
    exact Option.noConfusion h
  refine ⟨hi, ?_⟩
  rw [List.getElem?_eq_getElem hi] at h
  exact Option.some.inj h

theorem raceStep_twice_found (session : String) (m : Store) (P : List Phase) (a : Nat)
    (s : Session) (hlive : mapGet m session = some s) (ha : P[a]? = some Phase.pending) :
    raceStep session (raceStep session { quizzes := m, phases := P } a) a =
      { quizzes := mapDelete m session, phases := P.set a Phase.scored } := by
  obtain ⟨hi, _⟩ := getElem_of_getElem? ha
  have h1 : raceStep session { quizzes := m, phases := P } a =
      { quizzes := m, phases := P.set a (Phase.found s) } := by
    unfold raceStep
    simp only [ha, hlive]
  have h2 : (P.set a (Phase.found s))[a]? = some (Phase.found s) := by
    rw [List.getElem?_set_self hi]
  rw [h1]
  unfold raceStep
  simp only [h2, List.set_set]

theorem raceStep_twice_absent (session : String) (m : Store) (P : List Phase) (j : Nat)
    (hgone : mapGet m session = none) (hj : P[j]? = some Phase.pending) :
    raceStep session (raceStep session { quizzes := m, phases := P } j) j =
      { quizzes := m, phases := P.set j Phase.notFound } := by
  obtain ⟨hi, _⟩ := getElem_of_getElem? hj
  have h1 : raceStep session { quizzes := m, phases := P } j =
      { quizzes := m, phases := P.set j Phase.notFound } := by
    unfold raceStep
    simp only [hj, hgone]
  have h2 : (P.set j Phase.notFound)[j]? = some Phase.notFound := by
    rw [List.getElem?_set_self hi]
  rw [h1]
  unfold raceStep
  simp only [h2]

theorem race_rest (session : String) (rest : List Nat) (m : Store) (P : List Phase)
    (hgone : mapGet m session = none) (hnodup : rest.Nodup)
    (hpend : ∀ j ∈ rest, P[j]? = some Phase.pending) :
    (rest.foldl (fun r i => raceStep session (raceStep session r i) i)
        { quizzes := m, phases := P }).quizzes = m ∧
    (rest.foldl (fun r i => raceStep session (raceStep session r i) i)
        { quizzes := m, phases := P }).phases.count Phase.scored = P.count Phase.scored ∧
    (rest.foldl (fun r i => raceStep session (raceStep session r i) i)
        { quizzes := m, phases := P }).phases.count Phase.notFound =
      P.count Phase.notFound + rest.length := by
  induction rest generalizing P with
  | nil => simp
  | cons j rest ih =>
    have hj := hpend j (List.mem_cons_self _ _)
    obtain ⟨hi, hval⟩ := getElem_of_getElem? hj
    rw [List.nodup_cons] at hnodup
    have hpend2 : ∀ k ∈ rest, (P.set j Phase.notFound)[k]? = some Phase.pending := by
      intro k hk
      have hne : j ≠ k := fun h => hnodup.1 (h ▸ hk)
      rw [List.getElem?_set_ne hne]
      exact hpend k (List.mem_cons_of_mem _ hk)
    obtain ⟨h1, h2, h3⟩ := ih (P.set j Phase.notFound) hnodup.2 hpend2
    rw [List.foldl_cons, raceStep_twice_absent session m P j hgone hj]
    refine ⟨h1, ?_, ?_⟩
    · rw [h2, List.count_set _ _ _ _ hi, hval]
      simp
    · rw [h3, List.count_set _ _ _ _ hi, hval, List.length_cons]
      simp
      omega

/-- C2 fails on the code: two parallel `/submit` requests with the token of
a live session, scheduled so that both read the map before either deletes
the key, both find the session and both score it. -/
theorem race_double_score :
    scoredCount (race "17" exampleStore 2 [0, 1, 0, 1]) = 2 ∧
    notFoundCount (race "17" exampleStore 2 [0, 1, 0, 1]) = 0 := by
  decide

/-- C2, amended: for every `n >= 1`, when `n` `/submit` requests with the
token of a live session are served one after another, in any order, each
one's map read and delete done before the next one starts, exactly one finds
the session and scores it, the other `n - 1` find no session, and the token
is gone from the store. -/
theorem race_serial_exactly_one (session : String) (quizzes : Store) (s : Session) (n : Nat)
    (order : List Nat) (hn : 1 ≤ n) (hlive : mapGet quizzes session = some s)
    (hperm : order.Perm (List.range n)) :
    scoredCount (race session quizzes n (serialSchedule order)) = 1 ∧
    notFoundCount (race session quizzes n (serialSchedule order)) = n - 1 ∧
    mapGet (race session quizzes n (serialSchedule order)).quizzes session = none := by
  have hlen : order.length = n := by rw [hperm.length_eq, List.length_range]
  have hnodup : order.Nodup := hperm.nodup_iff.2 (List.nodup_range n)
  have hmem : ∀ j ∈ order, j < n := fun j hj => List.mem_range.1 (hperm.mem_iff.1 hj)
  cases order with
  | nil => simp at hlen; omega
  | cons a rest =>
    have ha : a < n := hmem a (List.mem_cons_self _ _)
    rw [List.nodup_cons] at hnodup
    have hpa : (List.replicate n Phase.pending)[a]? = some Phase.pending := by
      rw [List.getElem?_replicate]; simp [ha]
    have hgone : mapGet (mapDelete quizzes session) session = none := by
      rw [mapGet_mapDelete]; simp
    have hpend : ∀ j ∈ rest,
        ((List.replicate n Phase.pending).set a Phase.scored)[j]? = some Phase.pending := by
      intro j hj
      have hne : a ≠ j := fun h => hnodup.1 (h ▸ hj)
      rw [List.getElem?_set_ne hne, List.getElem?_replicate]
      simp [hmem j (List.mem_cons_of_mem _ hj)]
    obtain ⟨h1, h2, h3⟩ := race_rest session rest (mapDelete quizzes session)
      ((List.replicate n Phase.pending).set a Phase.scored) hgone hnodup.2 hpend
    have hrun : race session quizzes n (serialSchedule (a :: rest)) =
        rest.foldl (fun r i => raceStep session (raceStep session r i) i)
          { quizzes := mapDelete quizzes session,
            phases := (List.replicate n Phase.pending).set a Phase.scored } := by
      unfold race
      rw [foldl_serialSchedule, List.foldl_cons,
        raceStep_twice_found session quizzes _ a s hlive hpa]
    have hla : a < (List.replicate n Phase.pending).length := by
      rw [List.length_replicate]; exact ha
    have hga : (List.replicate n Phase.pending)[a] = Phase.pending := by simp
    simp only [List.length_cons] at hlen
    unfold scoredCount notFoundCount
    rw [hrun]
    refine ⟨?_, ?_, ?_⟩
    · rw [h2, List.count_set _ _ _ _ hla, hga, List.count_replicate]
      simp
    · rw [h3, List.count_set _ _ _ _ hla, hga, List.count_replicate]
      simp
      omega
    · rw [h1]; exact hgone

theorem race_serial_exactly_one_witness :
    scoredCount (race "17" exampleStore 3 (serialSchedule [2, 0, 1])) = 1 ∧
    notFoundCount (race "17" exampleStore 3 (serialSchedule [2, 0, 1])) = 3 - 1 ∧
    mapGet (race "17" exampleStore 3 (serialSchedule [2, 0, 1])).quizzes "17" = none :=
  race_serial_exactly_one "17" exampleStore
    { Quiz := { Questions := exampleBank, StartTime := 5 }, Username := "Bob" } 3 [2, 0, 1]
    (by decide) (by decide) (by decide)


end QuizApp
